import Mathlib

/-!
Verification of the yetuga `cleanup_script.py` debug-print migration tool.

File contents are modelled as `List Char`.  Each of the seven `re.sub`
rules of `replace_print_with_logger` is embedded as a matcher that, at a
given position, either fails or returns the replacement text together with
the remainder of the input after the matched region; a fuelled scanner
`reSubF` then reproduces Python's `re.sub` semantics (leftmost match,
non-overlapping, continue after the match, replacement text not rescanned).
The regex character classes `[^']`, `[^:]`, `[^"]` are modelled with
`takeWhile` and `dropWhile`, which is exact for these patterns because a
greedy negated-class run can only end at the first excluded character.
-/

/-- Convert a string literal to the `List Char` representation used throughout. -/
def str (s : String) : List Char := s.toList

/-- The single-quote character (ASCII 39), excluded by the regex class `[^']`. -/
def sqC : Char := Char.ofNat 39

/-- The double-quote character (ASCII 34), excluded by the regex class `[^"]`. -/
def dqC : Char := Char.ofNat 34

/-- Strip `p` from the front of `s`, returning the remainder, or `none` when
`p` is not a prefix of `s`. -/
def stripPrefixL : List Char → List Char → Option (List Char)
  | [], s => some s
  | _ :: _, [] => none
  | p :: ps, c :: cs => if p = c then stripPrefixL ps cs else none

/-- Does `s` start with `pat`? -/
def startsWithL (pat s : List Char) : Bool := (stripPrefixL pat s).isSome

/-- Python's substring containment test (`pat in s`). -/
def hasSubstr (pat : List Char) : List Char → Bool
  | [] => startsWithL pat []
  | c :: cs => startsWithL pat (c :: cs) || hasSubstr pat cs

/-- Number of positions of `s` (strictly before its end) at which `pat` occurs. -/
def occCount (pat : List Char) : List Char → Nat
  | [] => 0
  | c :: cs => (if startsWithL pat (c :: cs) then 1 else 0) + occCount pat cs

/-- Fuelled global substitution: scan left to right; where the matcher
succeeds, emit its replacement and continue after the matched region;
otherwise emit one character and move on.  With fuel `s.length` this is
exactly `re.sub` / `str.replace` for matchers that consume at least one
character, which all matchers below do. -/
def reSubF (m : List Char → Option (List Char × List Char)) : Nat → List Char → List Char
  | 0, s => s
  | _ + 1, [] => []
  | f + 1, c :: cs =>
    match m (c :: cs) with
    | some (rep, rest) => rep ++ reSubF m f rest
    | none => c :: reSubF m f cs

/-- Global substitution over the whole input. -/
def reSub (m : List Char → Option (List Char × List Char)) (s : List Char) : List Char :=
  reSubF m s.length s

/-- Rule (a), `print\('DEBUG: ([^']+)'\);` → `Logger.d('tag', '\1');`.
The greedy `[^']+` group runs to the first single quote, which must then be
followed by `);`. -/
def m1 (tag : List Char) (s : List Char) : Option (List Char × List Char) :=
  match stripPrefixL (str "print('DEBUG: ") s with
  | none => none
  | some r1 =>
    let g := r1.takeWhile (fun c => c != sqC)
    if g.isEmpty then none
    else
      match stripPrefixL (str "');") (r1.dropWhile (fun c => c != sqC)) with
      | none => none
      | some rest => some (str "Logger.d('" ++ tag ++ str "', '" ++ g ++ str "');", rest)

/-- Rule (b), `print\('DEBUG: ([^:]+): \$([^']+)'\);` → `Logger.d('tag', '\1: $\2');`. -/
def m2 (tag : List Char) (s : List Char) : Option (List Char × List Char) :=
  match stripPrefixL (str "print('DEBUG: ") s with
  | none => none
  | some r1 =>
    let g1 := r1.takeWhile (fun c => c != ':')
    if g1.isEmpty then none
    else
      match stripPrefixL (str ": $") (r1.dropWhile (fun c => c != ':')) with
      | none => none
      | some r2 =>
        let g2 := r2.takeWhile (fun c => c != sqC)
        if g2.isEmpty then none
        else
          match stripPrefixL (str "');") (r2.dropWhile (fun c => c != sqC)) with
          | none => none
          | some rest =>
            some (str "Logger.d('" ++ tag ++ str "', '" ++ g1 ++ str ": $" ++ g2 ++ str "');",
              rest)

/-- Rule (c), `print\('DEBUG: Error in ([^:]+): \$e'\);` → `Logger.e('tag', 'Error in \1', e);`. -/
def m3 (tag : List Char) (s : List Char) : Option (List Char × List Char) :=
  match stripPrefixL (str "print('DEBUG: Error in ") s with
  | none => none
  | some r1 =>
    let g := r1.takeWhile (fun c => c != ':')
    if g.isEmpty then none
    else
      match stripPrefixL (str ": $e');") (r1.dropWhile (fun c => c != ':')) with
      | none => none
      | some rest =>
        some (str "Logger.e('" ++ tag ++ str "', 'Error in " ++ g ++ str "', e);", rest)

/-- Rule (d), `print\('DEBUG: ([^:]+Error[^:]*): \$e'\);` → `Logger.e('tag', '\1', e);`.
The group is the maximal colon-free run, which must contain `Error` at
offset at least one. -/
def m4 (tag : List Char) (s : List Char) : Option (List Char × List Char) :=
  match stripPrefixL (str "print('DEBUG: ") s with
  | none => none
  | some r1 =>
    let g := r1.takeWhile (fun c => c != ':')
    if hasSubstr (str "Error") (g.drop 1) then
      match stripPrefixL (str ": $e');") (r1.dropWhile (fun c => c != ':')) with
      | none => none
      | some rest =>
        some (str "Logger.e('" ++ tag ++ str "', '" ++ g ++ str "', e);", rest)
    else none

/-- Rule (e), `print\("([^:]+Error[^:]*): \$e"\);` → `Logger.e('tag', '\1', e);`. -/
def m5 (tag : List Char) (s : List Char) : Option (List Char × List Char) :=
  match stripPrefixL (str "print(" ++ [dqC]) s with
  | none => none
  | some r1 =>
    let g := r1.takeWhile (fun c => c != ':')
    if hasSubstr (str "Error") (g.drop 1) then
      match stripPrefixL (str ": $e" ++ [dqC] ++ str ");") (r1.dropWhile (fun c => c != ':')) with
      | none => none
      | some rest =>
        some (str "Logger.e('" ++ tag ++ str "', '" ++ g ++ str "', e);", rest)
    else none

/-- Rule (f), `print\("([^"]+)"\);` → `Logger.d('tag', '\1');`. -/
def m6 (tag : List Char) (s : List Char) : Option (List Char × List Char) :=
  match stripPrefixL (str "print(" ++ [dqC]) s with
  | none => none
  | some r1 =>
    let g := r1.takeWhile (fun c => c != dqC)
    if g.isEmpty then none
    else
      match stripPrefixL ([dqC] ++ str ");") (r1.dropWhile (fun c => c != dqC)) with
      | none => none
      | some rest => some (str "Logger.d('" ++ tag ++ str "', '" ++ g ++ str "');", rest)

/-- Rule (g), `print\("([^:]+): \$([^"]+)"\);` → `Logger.d('tag', '\1: $\2');`. -/
def m7 (tag : List Char) (s : List Char) : Option (List Char × List Char) :=
  match stripPrefixL (str "print(" ++ [dqC]) s with
  | none => none
  | some r1 =>
    let g1 := r1.takeWhile (fun c => c != ':')
    if g1.isEmpty then none
    else
      match stripPrefixL (str ": $") (r1.dropWhile (fun c => c != ':')) with
      | none => none
      | some r2 =>
        let g2 := r2.takeWhile (fun c => c != dqC)
        if g2.isEmpty then none
        else
          match stripPrefixL ([dqC] ++ str ");") (r2.dropWhile (fun c => c != dqC)) with
          | none => none
          | some rest =>
            some (str "Logger.d('" ++ tag ++ str "', '" ++ g1 ++ str ": $" ++ g2 ++ str "');",
              rest)

/-- Substitution pass for rule (a). -/
def sub1 (tag : List Char) (s : List Char) : List Char := reSub (m1 tag) s

/-- Substitution pass for rule (b). -/
def sub2 (tag : List Char) (s : List Char) : List Char := reSub (m2 tag) s

/-- Substitution pass for rule (c). -/
def sub3 (tag : List Char) (s : List Char) : List Char := reSub (m3 tag) s

/-- Substitution pass for rule (d). -/
def sub4 (tag : List Char) (s : List Char) : List Char := reSub (m4 tag) s

/-- Substitution pass for rule (e). -/
def sub5 (tag : List Char) (s : List Char) : List Char := reSub (m5 tag) s

/-- Substitution pass for rule (f). -/
def sub6 (tag : List Char) (s : List Char) : List Char := reSub (m6 tag) s

/-- Substitution pass for rule (g). -/
def sub7 (tag : List Char) (s : List Char) : List Char := reSub (m7 tag) s

/-- The content transformation of `replace_print_with_logger`: the seven
`re.sub` rules applied in source order, each to the output of the previous
one. -/
def replace_print_with_logger (tag content : List Char) : List Char :=
  sub7 tag (sub6 tag (sub5 tag (sub4 tag (sub3 tag (sub2 tag (sub1 tag content))))))

/-- Comparison pipeline for the redundancy question about rule (g): only
the first six rules, in the same order. -/
def replace_print_first_six (tag content : List Char) : List Char :=
  sub6 tag (sub5 tag (sub4 tag (sub3 tag (sub2 tag (sub1 tag content)))))

/-- `os.path.basename`: the part of the path after the last `/`. -/
def basenameL (p : List Char) : List Char :=
  (p.reverse.takeWhile (fun c => c != '/')).reverse

/-- The stem of `os.path.splitext` on a slash-free name: cut at the last
dot, unless every character before that dot is itself a dot (Python treats
such names, e.g. `.bashrc`, as having no extension). -/
def splitextStem (b : List Char) : List Char :=
  let r := b.reverse
  let stemCand := ((r.dropWhile (fun c => c != '.')).tail).reverse
  if stemCand.any (fun c => c != '.') then stemCand else b

/-- Split on a separator character, Python `str.split` with a one-character
separator: `""` gives `[""]`, adjacent separators give empty pieces. -/
def splitOnChar (sep : Char) : List Char → List (List Char)
  | [] => [[]]
  | c :: cs =>
    match splitOnChar sep cs with
    | [] => [[c]]
    | w :: ws => if c = sep then [] :: w :: ws else (c :: w) :: ws

/-- Python `str.capitalize`: first character uppercased, every following
character lowercased. -/
def capitalizeWord : List Char → List Char
  | [] => []
  | c :: cs => c.toUpper :: cs.map Char.toLower

/-- `get_log_tag_from_path`: base name, extension stripped, split on `_`,
each word capitalized, concatenated. -/
def get_log_tag_from_path (p : List Char) : List Char :=
  ((splitOnChar '_' (splitextStem (basenameL p))).map capitalizeWord).flatten

/-- The literal logging import statement checked for and inserted by
`add_logger_import`. -/
def loggerImportL : List Char := str "import 'package:yetuga/utils/logger.dart';"

/-- Match of the regex `(import [^;]+;)\n` at the head of `s`: returns the
full matched text (group 0, trailing newline included). -/
def matchImportAt (s : List Char) : Option (List Char) :=
  match stripPrefixL (str "import ") s with
  | none => none
  | some r1 =>
    let g := r1.takeWhile (fun c => c != ';')
    if g.isEmpty then none
    else
      match stripPrefixL (str ";" ++ [Char.ofNat 10]) (r1.dropWhile (fun c => c != ';')) with
      | none => none
      | some _ => some (str "import " ++ g ++ str ";" ++ [Char.ofNat 10])

/-- `re.search` for the import pattern: the match at the leftmost position
where one exists. -/
def searchImport : List Char → Option (List Char)
  | [] => none
  | c :: cs =>
    match matchImportAt (c :: cs) with
    | some m => some m
    | none => searchImport cs

/-- Matcher turning `reSubF` into Python's `str.replace old new`. -/
def replaceMatcher (old new : List Char) (s : List Char) : Option (List Char × List Char) :=
  match stripPrefixL old s with
  | some rest => some (new, rest)
  | none => none

/-- Python `content.replace(old, new)`: every non-overlapping occurrence,
left to right. -/
def replaceAll (old new s : List Char) : List Char :=
  reSub (replaceMatcher old new) s

/-- The content transformation of `add_logger_import`: no-op when the
logging import is already present; otherwise find the first `import ...;`
line and replace every occurrence of that matched text by itself followed
by the logging import line (the source uses `str.replace`, which is
global). -/
def add_logger_import (content : List Char) : List Char :=
  if hasSubstr loggerImportL content then content
  else
    match searchImport content with
    | some m => replaceAll m (m ++ (loggerImportL ++ [Char.ofNat 10])) content
    | none => content

/-- One full per-file pass with a given tag: import insertion, then the
seven substitutions. -/
def rewrite_pass (tag content : List Char) : List Char :=
  replace_print_with_logger tag (add_logger_import content)

/-- `process_file` as a content transformation: derive the tag from the
path, insert the import, run the substitutions. -/
def process_file_content (path content : List Char) : List Char :=
  rewrite_pass (get_log_tag_from_path path) content

/-- The hardcoded priority list of the script. -/
def key_files : List String :=
  ["lib/screens/onboarding/onboarding_screen.dart",
   "lib/screens/onboarding/steps/display_name_step.dart",
   "lib/services/firebase_service.dart",
   "lib/main.dart",
   "lib/models/onboarding_data.dart",
   "lib/providers/auth_provider.dart",
   "lib/providers/onboarding_provider.dart",
   "lib/screens/auth/auth_screen.dart",
   "lib/screens/auth/email_signin_screen.dart",
   "lib/services/storage_service.dart"]

/-- The logging module's own file, skipped by the scan loop. -/
def loggerFilePath : String := "lib/utils/logger.dart"

/-- The ordered list of files the two loops at the bottom of the script
process: existing priority files in listed order, then the globbed
`lib/**/*.dart` files in discovery order, skipping the logger file and
anything already in the priority list. -/
def processedPaths (onDisk : String → Bool) (dartFiles : List String) : List String :=
  key_files.filter (fun p => onDisk p) ++
    dartFiles.filter (fun p => !(p == loggerFilePath || key_files.contains p))

/-- A double-quoted print call of the shape matched by rule (g):
`print("g1: $g2");`. -/
def gPrintCall (g1 g2 : List Char) : List Char :=
  (str "print(" ++ [dqC]) ++ (g1 ++ (str ": $" ++ (g2 ++ ([dqC] ++ str ");"))))

/-- The Logger call that rules (f) and (g) both produce for `gPrintCall`. -/
def gLoggerCall (tag g1 g2 : List Char) : List Char :=
  str "Logger.d('" ++ (tag ++ (str "', '" ++ (g1 ++ (str ": $" ++ (g2 ++ str "');")))))

/-! ### Basic lemmas about the string primitives -/

theorem stripPrefixL_self : ∀ (p r : List Char), stripPrefixL p (p ++ r) = some r := by
  intro p
  induction p with
  | nil => intro r; rfl
  | cons a as ih => intro r; simp [stripPrefixL, ih]

theorem stripPrefixL_refl (p : List Char) : stripPrefixL p p = some [] := by
  have h := stripPrefixL_self p []
  rwa [List.append_nil] at h

theorem startsWithL_self (p r : List Char) : startsWithL p (p ++ r) = true := by
  simp [startsWithL, stripPrefixL_self]

theorem stripPrefixL_eq_append : ∀ (p s r : List Char), stripPrefixL p s = some r → s = p ++ r := by
  intro p
  induction p with
  | nil => intro s r h; simp [stripPrefixL] at h; simp [h]
  | cons a as ih =>
    intro s r h
    cases s with
    | nil => simp [stripPrefixL] at h
    | cons c cs =>
      simp only [stripPrefixL] at h
      by_cases hac : a = c
      · rw [if_pos hac] at h
        have := ih cs r h
        simp [hac, this]
      · rw [if_neg hac] at h
        cases h

theorem stripPrefixL_append : ∀ (p q s r : List Char), stripPrefixL (p ++ q) s = some r →
    ∃ t, stripPrefixL p s = some t ∧ stripPrefixL q t = some r := by
  intro p
  induction p with
  | nil => intro q s r h; exact ⟨s, rfl, h⟩
  | cons a as ih =>
    intro q s r h
    cases s with
    | nil => simp [stripPrefixL] at h
    | cons c cs =>
      simp only [List.cons_append, stripPrefixL] at h ⊢
      by_cases hac : a = c
      · rw [if_pos hac] at h ⊢
        exact ih q cs r h
      · rw [if_neg hac] at h
        cases h

theorem startsWithL_of_strip {p q s r : List Char} (h : stripPrefixL (p ++ q) s = some r) :
    startsWithL p s = true := by
  obtain ⟨t, h1, _⟩ := stripPrefixL_append p q s r h
  simp [startsWithL, h1]

theorem mem_of_startsWithL {p s : List Char} {c : Char} (h : startsWithL p s = true)
    (hc : c ∈ p) : c ∈ s := by
  cases hsp : stripPrefixL p s with
  | none => rw [startsWithL, hsp] at h; cases h
  | some r => rw [stripPrefixL_eq_append p s r hsp]; exact List.mem_append_left r hc

theorem hasSubstr_false_drop : ∀ (t pat : List Char), hasSubstr pat t = false →
    ∀ i, startsWithL pat (t.drop i) = false := by
  intro t
  induction t with
  | nil =>
    intro pat h i
    simpa [List.drop_nil] using h
  | cons c cs ih =>
    intro pat h i
    simp only [hasSubstr, Bool.or_eq_false_iff] at h
    cases i with
    | zero => exact h.1
    | succ j => rw [List.drop_succ_cons]; exact ih pat h.2 j

theorem reSubF_nil (m : List Char → Option (List Char × List Char)) (f : Nat) :
    reSubF m f [] = [] := by
  cases f <;> rfl

theorem reSubF_cons_some {m : List Char → Option (List Char × List Char)} {c : Char}
    {cs rep rest : List Char} (f : Nat) (hm : m (c :: cs) = some (rep, rest)) :
    reSubF m (f + 1) (c :: cs) = rep ++ reSubF m f rest := by
  simp [reSubF, hm]

theorem reSubF_cons_none {m : List Char → Option (List Char × List Char)} {c : Char}
    {cs : List Char} (f : Nat) (hm : m (c :: cs) = none) :
    reSubF m (f + 1) (c :: cs) = c :: reSubF m f cs := by
  simp [reSubF, hm]

theorem reSubF_id {m : List Char → Option (List Char × List Char)} :
    ∀ (t : List Char) (f : Nat), (∀ i, m (t.drop i) = none) → reSubF m f t = t := by
  intro t
  induction t with
  | nil => intro f _; exact reSubF_nil m f
  | cons c cs ih =>
    intro f h
    cases f with
    | zero => rfl
    | succ f =>
      have h0 : m (c :: cs) = none := by simpa using h 0
      rw [reSubF_cons_none f h0]
      have : reSubF m f cs = cs := by
        apply ih
        intro i
        have := h (i + 1)
        rwa [List.drop_succ_cons] at this
      rw [this]

theorem reSub_total {m : List Char → Option (List Char × List Char)} {s rep : List Char}
    (hne : s ≠ []) (hm : m s = some (rep, [])) : reSub m s = rep := by
  obtain ⟨c, cs, rfl⟩ := List.exists_cons_of_ne_nil hne
  show reSubF m (c :: cs).length (c :: cs) = rep
  rw [List.length_cons, reSubF_cons_some cs.length hm, reSubF_nil, List.append_nil]

theorem reSubF_id_of_prefix {m : List Char → Option (List Char × List Char)}
    {pfx : List Char} (hm : ∀ s x, m s = some x → startsWithL pfx s = true)
    {t : List Char} (h : hasSubstr pfx t = false) (f : Nat) : reSubF m f t = t := by
  apply reSubF_id
  intro i
  cases hmi : m (t.drop i) with
  | none => rfl
  | some x =>
    have h1 := hm _ _ hmi
    have h2 := hasSubstr_false_drop t pfx h i
    rw [h1] at h2
    cases h2

theorem reSubF_id_of_not_mem {m : List Char → Option (List Char × List Char)}
    {ch : Char} (hm : ∀ s x, m s = some x → ch ∈ s)
    {t : List Char} (h : ch ∉ t) (f : Nat) : reSubF m f t = t := by
  apply reSubF_id
  intro i
  cases hmi : m (t.drop i) with
  | none => rfl
  | some x =>
    have h1 := hm _ _ hmi
    exact absurd (List.drop_subset i t h1) h

theorem occCount_le_append (pat a b : List Char) : occCount pat b ≤ occCount pat (a ++ b) := by
  induction a with
  | nil => simp
  | cons c cs ih =>
    simp only [List.cons_append, occCount]
    exact le_trans ih (Nat.le_add_left _ _)

theorem occCount_pos {old : List Char} (hne : old ≠ []) :
    ∀ (pre suf : List Char), 1 ≤ occCount old (pre ++ (old ++ suf)) := by
  intro pre
  induction pre with
  | nil =>
    intro suf
    obtain ⟨o, os, rfl⟩ := List.exists_cons_of_ne_nil hne
    rw [List.nil_append, List.cons_append, occCount]
    have hsw : startsWithL (o :: os) (o :: (os ++ suf)) = true := by
      have := startsWithL_self (o :: os) suf
      rwa [List.cons_append] at this
    rw [hsw, if_pos rfl]
    exact Nat.le_add_right 1 _
  | cons c cs ih =>
    intro suf
    rw [List.cons_append, occCount]
    exact le_trans (ih suf) (Nat.le_add_left _ _)

theorem occCount_zero_starts {pat : List Char} (hne : pat ≠ []) :
    ∀ (s : List Char), occCount pat s = 0 → ∀ i, startsWithL pat (s.drop i) = false := by
  intro s
  induction s with
  | nil =>
    intro _ i
    obtain ⟨p, ps, rfl⟩ := List.exists_cons_of_ne_nil hne
    simp [List.drop_nil, startsWithL, stripPrefixL]
  | cons c cs ih =>
    intro h i
    simp only [occCount, Nat.add_eq_zero] at h
    have h1 : startsWithL pat (c :: cs) = false := by
      cases hb : startsWithL pat (c :: cs)
      · rfl
      · rw [hb, if_pos rfl] at h; cases h.1
    cases i with
    | zero => exact h1
    | succ j => rw [List.drop_succ_cons]; exact ih h.2 j

/-! ### Each rule's matcher only fires on text that starts with a print call -/

theorem m1_starts {tag s : List Char} {x : List Char × List Char} (h : m1 tag s = some x) :
    startsWithL (str "print(") s = true := by
  cases hs : stripPrefixL (str "print('DEBUG: ") s with
  | none => simp [m1, hs] at h
  | some r1 =>
    rw [(by decide : str "print('DEBUG: " = str "print(" ++ str "'DEBUG: ")] at hs
    exact startsWithL_of_strip hs

theorem m2_starts {tag s : List Char} {x : List Char × List Char} (h : m2 tag s = some x) :
    startsWithL (str "print(") s = true := by
  cases hs : stripPrefixL (str "print('DEBUG: ") s with
  | none => simp [m2, hs] at h
  | some r1 =>
    rw [(by decide : str "print('DEBUG: " = str "print(" ++ str "'DEBUG: ")] at hs
    exact startsWithL_of_strip hs

theorem m3_starts {tag s : List Char} {x : List Char × List Char} (h : m3 tag s = some x) :
    startsWithL (str "print(") s = true := by
  cases hs : stripPrefixL (str "print('DEBUG: Error in ") s with
  | none => simp [m3, hs] at h
  | some r1 =>
    rw [(by decide : str "print('DEBUG: Error in " = str "print(" ++ str "'DEBUG: Error in ")] at hs
    exact startsWithL_of_strip hs

theorem m4_starts {tag s : List Char} {x : List Char × List Char} (h : m4 tag s = some x) :
    startsWithL (str "print(") s = true := by
  cases hs : stripPrefixL (str "print('DEBUG: ") s with
  | none => simp [m4, hs] at h
  | some r1 =>
    rw [(by decide : str "print('DEBUG: " = str "print(" ++ str "'DEBUG: ")] at hs
    exact startsWithL_of_strip hs

theorem m5_starts {tag s : List Char} {x : List Char × List Char} (h : m5 tag s = some x) :
    startsWithL (str "print(") s = true := by
  cases hs : stripPrefixL (str "print(" ++ [dqC]) s with
  | none => simp [m5, hs] at h
  | some r1 => exact startsWithL_of_strip hs

theorem m6_starts {tag s : List Char} {x : List Char × List Char} (h : m6 tag s = some x) :
    startsWithL (str "print(") s = true := by
  cases hs : stripPrefixL (str "print(" ++ [dqC]) s with
  | none => simp [m6, hs] at h
  | some r1 => exact startsWithL_of_strip hs

theorem m7_starts {tag s : List Char} {x : List Char × List Char} (h : m7 tag s = some x) :
    startsWithL (str "print(") s = true := by
  cases hs : stripPrefixL (str "print(" ++ [dqC]) s with
  | none => simp [m7, hs] at h
  | some r1 => exact startsWithL_of_strip hs

theorem m7_mem_dq {tag s : List Char} {x : List Char × List Char} (h : m7 tag s = some x) :
    dqC ∈ s := by
  cases hs : stripPrefixL (str "print(" ++ [dqC]) s with
  | none => simp [m7, hs] at h
  | some r1 =>
    exact mem_of_startsWithL (startsWithL_of_strip (p := str "print(" ++ [dqC])
      (q := []) (by rwa [List.append_nil])) (by decide)

/-- If no `print(` occurs anywhere, none of the seven rules changes the text. -/
theorem sub_rules_id {tag t : List Char} (h : hasSubstr (str "print(") t = false) :
    replace_print_with_logger tag t = t := by
  have h1 : sub1 tag t = t := reSubF_id_of_prefix (fun _ _ hx => m1_starts hx) h _
  have h2 : sub2 tag t = t := reSubF_id_of_prefix (fun _ _ hx => m2_starts hx) h _
  have h3 : sub3 tag t = t := reSubF_id_of_prefix (fun _ _ hx => m3_starts hx) h _
  have h4 : sub4 tag t = t := reSubF_id_of_prefix (fun _ _ hx => m4_starts hx) h _
  have h5 : sub5 tag t = t := reSubF_id_of_prefix (fun _ _ hx => m5_starts hx) h _
  have h6 : sub6 tag t = t := reSubF_id_of_prefix (fun _ _ hx => m6_starts hx) h _
  have h7 : sub7 tag t = t := reSubF_id_of_prefix (fun _ _ hx => m7_starts hx) h _
  simp only [replace_print_with_logger, h1, h2, h3, h4, h5, h6, h7]

/-! ### Python `str.replace` via the scanner -/

theorem replaceMatcher_append (old new r : List Char) :
    replaceMatcher old new (old ++ r) = some (new, r) := by
  simp [replaceMatcher, stripPrefixL_self]

theorem replaceMatcher_none {old new s : List Char} (h : startsWithL old s = false) :
    replaceMatcher old new s = none := by
  cases hs : stripPrefixL old s with
  | none => simp [replaceMatcher, hs]
  | some r => rw [startsWithL, hs] at h; cases h

/-- When `old` occurs exactly once, `str.replace` rewrites exactly that
occurrence and leaves everything else alone. -/
theorem replaceAll_unique {old new : List Char} (hne : old ≠ []) :
    ∀ (pre suf : List Char) (f : Nat), (pre ++ (old ++ suf)).length ≤ f →
      occCount old (pre ++ (old ++ suf)) = 1 →
      reSubF (replaceMatcher old new) f (pre ++ (old ++ suf)) = pre ++ (new ++ suf) := by
  intro pre
  induction pre with
  | nil =>
    intro suf f hf huniq
    rw [List.nil_append] at hf huniq ⊢
    obtain ⟨o, os, rfl⟩ := List.exists_cons_of_ne_nil hne
    cases f with
    | zero => rw [List.cons_append, List.length_cons] at hf; cases hf
    | succ f =>
      have hm : replaceMatcher (o :: os) new (o :: (os ++ suf)) = some (new, suf) := by
        have := replaceMatcher_append (o :: os) new suf
        rwa [List.cons_append] at this
      rw [List.cons_append, reSubF_cons_some f hm]
      have hocc0 : occCount (o :: os) suf = 0 := by
        have hsw : startsWithL (o :: os) (o :: (os ++ suf)) = true := by
          have := startsWithL_self (o :: os) suf
          rwa [List.cons_append] at this
        rw [List.cons_append, occCount, hsw, if_pos rfl] at huniq
        have h0 : occCount (o :: os) (os ++ suf) = 0 := by omega
        have := occCount_le_append (o :: os) os suf
        omega
      have hid : reSubF (replaceMatcher (o :: os) new) f suf = suf := by
        apply reSubF_id
        intro i
        exact replaceMatcher_none (occCount_zero_starts hne suf hocc0 i)
      rw [hid, List.nil_append]
  | cons c pre ih =>
    intro suf f hf huniq
    cases f with
    | zero => rw [List.cons_append, List.length_cons] at hf; cases hf
    | succ f =>
      rw [List.cons_append] at huniq ⊢
      have hsw : startsWithL old (c :: (pre ++ (old ++ suf))) = false := by
        cases hb : startsWithL old (c :: (pre ++ (old ++ suf)))
        · rfl
        · rw [occCount, hb, if_pos rfl] at huniq
          have := occCount_pos hne pre suf
          omega
      rw [reSubF_cons_none f (replaceMatcher_none hsw)]
      have hlen : (pre ++ (old ++ suf)).length ≤ f := by
        rw [List.cons_append, List.length_cons] at hf
        omega
      have hocc : occCount old (pre ++ (old ++ suf)) = 1 := by
        rw [occCount, hsw] at huniq
        simpa using huniq
      rw [ih suf f hlen hocc, List.cons_append]

/-! ### takeWhile and dropWhile over appends -/

theorem takeWhileAll {α : Type} (p : α → Bool) :
    ∀ (l : List α), (∀ c ∈ l, p c = true) → ∀ (r : List α),
      (l ++ r).takeWhile p = l ++ r.takeWhile p := by
  intro l
  induction l with
  | nil => intro _ r; simp
  | cons a as ih =>
    intro h r
    have ha : p a = true := h a (List.mem_cons_self a as)
    rw [List.cons_append, List.takeWhile_cons_of_pos ha, List.cons_append,
      ih (fun c hc => h c (List.mem_cons_of_mem a hc)) r]

theorem dropWhileAll {α : Type} (p : α → Bool) :
    ∀ (l : List α), (∀ c ∈ l, p c = true) → ∀ (r : List α),
      (l ++ r).dropWhile p = r.dropWhile p := by
  intro l
  induction l with
  | nil => intro _ r; simp
  | cons a as ih =>
    intro h r
    have ha : p a = true := h a (List.mem_cons_self a as)
    rw [List.cons_append, List.dropWhile_cons_of_pos ha,
      ih (fun c hc => h c (List.mem_cons_of_mem a hc)) r]

/-! ### Rules (f) and (g) on a pure rule-(g)-shaped call without inner double quotes -/

theorem m6_gPrintCall {tag g1 g2 : List Char} (hg1 : g1 ≠ [])
    (h1 : ∀ c ∈ g1, c ≠ dqC) (h2 : ∀ c ∈ g2, c ≠ dqC) :
    m6 tag (gPrintCall g1 g2) = some (gLoggerCall tag g1 g2, []) := by
  have hX : stripPrefixL (str "print(" ++ [dqC]) (gPrintCall g1 g2)
      = some (g1 ++ (str ": $" ++ (g2 ++ ([dqC] ++ str ");")))) := stripPrefixL_self _ _
  have hq1 : ∀ c ∈ g1, (c != dqC) = true := by
    intro c hc; simpa [bne_iff_ne] using h1 c hc
  have hq2 : ∀ c ∈ g2, (c != dqC) = true := by
    intro c hc; simpa [bne_iff_ne] using h2 c hc
  have hqm : ∀ c ∈ str ": $", (c != dqC) = true := by decide
  have hstop : List.takeWhile (fun c => c != dqC) (dqC :: str ");") = [] :=
    List.takeWhile_cons_of_neg (by decide)
  have hdstop : List.dropWhile (fun c => c != dqC) (dqC :: str ");") = dqC :: str ");" :=
    List.dropWhile_cons_of_neg (by decide)
  have htw : (g1 ++ (str ": $" ++ (g2 ++ ([dqC] ++ str ");")))).takeWhile (fun c => c != dqC)
      = g1 ++ (str ": $" ++ g2) := by
    rw [takeWhileAll _ g1 hq1, takeWhileAll _ (str ": $") hqm, takeWhileAll _ g2 hq2,
      List.singleton_append, hstop, List.append_nil]
  have hdw : (g1 ++ (str ": $" ++ (g2 ++ ([dqC] ++ str ");")))).dropWhile (fun c => c != dqC)
      = [dqC] ++ str ");" := by
    rw [dropWhileAll _ g1 hq1, dropWhileAll _ (str ": $") hqm, dropWhileAll _ g2 hq2,
      List.singleton_append, hdstop]
  have hne : (g1 ++ (str ": $" ++ g2)).isEmpty = false := by
    obtain ⟨a, as, rfl⟩ := List.exists_cons_of_ne_nil hg1
    rfl
  have hstrip2 : stripPrefixL ([dqC] ++ str ");") ([dqC] ++ str ");") = some [] :=
    stripPrefixL_refl _
  simp only [m6, hX, htw, hdw, hne, hstrip2]
  simp [gLoggerCall, List.append_assoc]

theorem m7_gPrintCall {tag g1 g2 : List Char} (hg1 : g1 ≠ []) (hg2 : g2 ≠ [])
    (h1 : ∀ c ∈ g1, c ≠ ':' ∧ c ≠ dqC) (h2 : ∀ c ∈ g2, c ≠ dqC) :
    m7 tag (gPrintCall g1 g2) = some (gLoggerCall tag g1 g2, []) := by
  have hX : stripPrefixL (str "print(" ++ [dqC]) (gPrintCall g1 g2)
      = some (g1 ++ (str ": $" ++ (g2 ++ ([dqC] ++ str ");")))) := stripPrefixL_self _ _
  have hc1 : ∀ c ∈ g1, (c != ':') = true := by
    intro c hc; simpa [bne_iff_ne] using (h1 c hc).1
  have hq2 : ∀ c ∈ g2, (c != dqC) = true := by
    intro c hc; simpa [bne_iff_ne] using h2 c hc
  have hcolon : (str ": $" ++ (g2 ++ ([dqC] ++ str ");")))
      = ':' :: (str " $" ++ (g2 ++ ([dqC] ++ str ");"))) := rfl
  have htw1 : (g1 ++ (str ": $" ++ (g2 ++ ([dqC] ++ str ");")))).takeWhile (fun c => c != ':')
      = g1 := by
    rw [takeWhileAll _ g1 hc1, hcolon, List.takeWhile_cons_of_neg (by decide), List.append_nil]
  have hdw1 : (g1 ++ (str ": $" ++ (g2 ++ ([dqC] ++ str ");")))).dropWhile (fun c => c != ':')
      = str ": $" ++ (g2 ++ ([dqC] ++ str ");")) := by
    rw [dropWhileAll _ g1 hc1, hcolon, List.dropWhile_cons_of_neg (by decide)]
  have hne1 : g1.isEmpty = false := by
    obtain ⟨a, as, rfl⟩ := List.exists_cons_of_ne_nil hg1
    rfl
  have hstrip1 : stripPrefixL (str ": $") (str ": $" ++ (g2 ++ ([dqC] ++ str ");")))
      = some (g2 ++ ([dqC] ++ str ");")) := stripPrefixL_self _ _
  have hstop : List.takeWhile (fun c => c != dqC) (dqC :: str ");") = [] :=
    List.takeWhile_cons_of_neg (by decide)
  have hdstop : List.dropWhile (fun c => c != dqC) (dqC :: str ");") = dqC :: str ");" :=
    List.dropWhile_cons_of_neg (by decide)
  have htw2 : (g2 ++ ([dqC] ++ str ");")).takeWhile (fun c => c != dqC) = g2 := by
    rw [takeWhileAll _ g2 hq2, List.singleton_append, hstop, List.append_nil]
  have hdw2 : (g2 ++ ([dqC] ++ str ");")).dropWhile (fun c => c != dqC)
      = [dqC] ++ str ");" := by
    rw [dropWhileAll _ g2 hq2, List.singleton_append, hdstop]
  have hne2 : g2.isEmpty = false := by
    obtain ⟨a, as, rfl⟩ := List.exists_cons_of_ne_nil hg2
    rfl
  have hstrip2 : stripPrefixL ([dqC] ++ str ");") ([dqC] ++ str ");") = some [] :=
    stripPrefixL_refl _
  simp only [m7, hX, htw1, hdw1, hne1, hstrip1, htw2, hdw2, hne2, hstrip2]
  simp [gLoggerCall, List.append_assoc]

theorem dqC_not_mem_gLoggerCall {tag g1 g2 : List Char}
    (ht : ∀ c ∈ tag, c ≠ dqC) (h1 : ∀ c ∈ g1, c ≠ dqC) (h2 : ∀ c ∈ g2, c ≠ dqC) :
    dqC ∉ gLoggerCall tag g1 g2 := by
  intro hmem
  simp only [gLoggerCall, List.mem_append] at hmem
  rcases hmem with h | h | h | h | h | h | h
  · exact absurd h (by decide)
  · exact (ht _ h) rfl
  · exact absurd h (by decide)
  · exact (h1 _ h) rfl
  · exact absurd h (by decide)
  · exact (h2 _ h) rfl
  · exact absurd h (by decide)

/-! ### The import search never returns an empty match -/

theorem matchImportAt_ne_nil {s mi : List Char} (h : matchImportAt s = some mi) : mi ≠ [] := by
  simp only [matchImportAt] at h
  split at h
  · cases h
  · split at h
    · cases h
    · split at h
      · cases h
      · injection h with h2
        subst h2
        intro hnil
        simp only [List.append_eq_nil] at hnil
        exact absurd hnil.2 (by decide)

theorem searchImport_ne_nil : ∀ {s mi : List Char}, searchImport s = some mi → mi ≠ [] := by
  intro s
  induction s with
  | nil => intro mi h; cases h
  | cons c cs ih =>
    intro mi h
    cases hm : matchImportAt (c :: cs) with
    | some m0 =>
      have hs : searchImport (c :: cs) = some m0 := by simp [searchImport, hm]
      rw [hs] at h
      injection h with h2
      subst h2
      exact matchImportAt_ne_nil hm
    | none =>
      have hs : searchImport (c :: cs) = searchImport cs := by simp [searchImport, hm]
      rw [hs] at h
      exact ih h

/-! ### Claim theorems -/

/-- Claim C1 (code bug in the rule order): on the file content
`print('DEBUG: Error in save: $e');` the program does not produce
`Logger.e(tag, 'Error in save', e);` as the claim and the spec state.
Rule (a) runs first and already matches (the message contains no single
quote), rewriting the call to `Logger.d(tag, 'Error in save: $e');`, so
rule (c) never sees its documented shape and no `Logger.e` appears. -/
theorem c1_error_in_shape_gets_logger_d :
    process_file_content (str "lib/services/storage_service.dart")
        (str "print('DEBUG: Error in save: $e');")
      = str "Logger.d('StorageService', 'Error in save: $e');" ∧
    hasSubstr (str "Logger.e")
        (process_file_content (str "lib/services/storage_service.dart")
          (str "print('DEBUG: Error in save: $e');")) = false :=
  ⟨by decide, by decide⟩

/-- Claim C6: tag derivation takes the path's base name, strips the
extension, splits on underscores, capitalizes each word, and concatenates
with no separator; `onboarding_screen.dart` yields `OnboardingScreen`,
`auth_provider.dart` yields `AuthProvider`, and degenerate names produce
degenerate tags with no error conditions. -/
theorem c6_tag_derivation :
    get_log_tag_from_path (str "onboarding_screen.dart") = str "OnboardingScreen" ∧
    get_log_tag_from_path (str "auth_provider.dart") = str "AuthProvider" ∧
    (∀ p : List Char, get_log_tag_from_path p
      = ((splitOnChar '_' (splitextStem (basenameL p))).map capitalizeWord).flatten) ∧
    get_log_tag_from_path (str "") = str "" ∧
    get_log_tag_from_path (str "_.dart") = str "" :=
  ⟨by decide, by decide, fun _ => rfl, by decide, by decide⟩

/-- Claim C10: within each underscore-separated word, every character after
the first is lowercased, so `URL_helper.dart` derives the tag `UrlHelper`
(not `URLHelper`): the original casing beyond a word's first letter is not
preserved. -/
theorem c10_capitalize_lowercases_rest :
    get_log_tag_from_path (str "URL_helper.dart") = str "UrlHelper" ∧
    ∀ (c : Char) (cs : List Char),
      capitalizeWord (c :: cs) = c.toUpper :: cs.map Char.toLower :=
  ⟨by decide, fun _ _ => rfl⟩

/-- Claim C7: when no text of the file matches the generic `import ...;`
pattern, the import-insertion step returns the content unchanged — nothing
is appended anywhere, including at end of file. -/
theorem c7_no_import_line_no_change (content : List Char)
    (h : searchImport content = none) : add_logger_import content = content := by
  cases hi : hasSubstr loggerImportL content with
  | true => simp [add_logger_import, hi]
  | false => simp [add_logger_import, hi, h]

/-- Witness for C7 at the concrete content `hello`. -/
theorem c7_witness :
    searchImport (str "hello") = none ∧ add_logger_import (str "hello") = str "hello" :=
  ⟨by decide, c7_no_import_line_no_change (str "hello") (by decide)⟩

/-- Claim C8: when the literal logging import already occurs anywhere in the
file text, the import-insertion step is a no-op and the content is
byte-identical before and after. -/
theorem c8_import_present_noop (content : List Char)
    (h : hasSubstr loggerImportL content = true) : add_logger_import content = content := by
  simp [add_logger_import, h]

/-- Witness for C8 at a content that is exactly the logging import line. -/
theorem c8_witness :
    hasSubstr loggerImportL loggerImportL = true ∧
    add_logger_import loggerImportL = loggerImportL :=
  ⟨by decide, c8_import_present_noop loggerImportL (by decide)⟩

/-- Claim C2 counterexample: the per-file processing is not idempotent.  On
the content `print("print('DEBUG: x");` the first run's rule (f) emits
`Logger.d('A', 'print('DEBUG: x');`, which reassembles a `print('DEBUG: ...');`
occurrence that rule (a) matches on the second run, so the second run
changes the text again. -/
theorem c2_counterexample :
    process_file_content (str "lib/a.dart")
        (process_file_content (str "lib/a.dart") (str "print(\"print('DEBUG: x\");"))
      ≠ process_file_content (str "lib/a.dart") (str "print(\"print('DEBUG: x\");") := by
  decide

/-- Claim C2 (amended): a second run changes nothing on content that contains
no occurrence of `print(` and in which the logging import is already present
or no `import ...;` line matches.  All seven rule patterns require the
literal `print(` and the containment check or the failed search blocks a
second import insertion, so a pass over such content is the identity. -/
theorem c2_amended (tag t : List Char)
    (hp : hasSubstr (str "print(") t = false)
    (hi : hasSubstr loggerImportL t = true ∨ searchImport t = none) :
    rewrite_pass tag t = t := by
  have ha : add_logger_import t = t := by
    cases hil : hasSubstr loggerImportL t with
    | true => simp [add_logger_import, hil]
    | false =>
      cases hi with
      | inl h => rw [h] at hil; cases hil
      | inr h => simp [add_logger_import, hil, h]
  show replace_print_with_logger tag (add_logger_import t) = t
  rw [ha]
  exact sub_rules_id hp

/-- Witness for the amended C2 at an already-migrated one-line content. -/
theorem c2_amended_witness :
    hasSubstr (str "print(") (str "Logger.d('A', 'x');") = false ∧
    searchImport (str "Logger.d('A', 'x');") = none ∧
    rewrite_pass (str "A") (str "Logger.d('A', 'x');") = str "Logger.d('A', 'x');" :=
  ⟨by decide, by decide, c2_amended (str "A") (str "Logger.d('A', 'x');") (by decide)
    (Or.inr (by decide))⟩

/-- Claim C3 counterexample: the insertion is not "exactly once".  On a file
whose first import line occurs twice verbatim, the global `str.replace`
inserts the logging import after both occurrences. -/
theorem c3_counterexample :
    occCount loggerImportL (str "import a;\nimport a;\nx") = 0 ∧
    add_logger_import (str "import a;\nimport a;\nx")
      = str "import a;\nimport 'package:yetuga/utils/logger.dart';\nimport a;\nimport 'package:yetuga/utils/logger.dart';\nx" ∧
    occCount loggerImportL (add_logger_import (str "import a;\nimport a;\nx")) = 2 :=
  ⟨by decide, by decide, by decide⟩

/-- Claim C3 (amended): when the logging import is absent and an import line
matches, the step replaces every occurrence of the first-matched import text
with itself followed by the logging import line; when that matched text
occurs exactly once in the file — the common case — the logging import is
inserted exactly once, immediately after that first import line, leaving the
rest of the file unchanged. -/
theorem c3_amended (content pre suf mi : List Char)
    (habs : hasSubstr loggerImportL content = false)
    (hsearch : searchImport content = some mi)
    (hdecomp : content = pre ++ (mi ++ suf))
    (huniq : occCount mi content = 1) :
    add_logger_import content
      = pre ++ ((mi ++ (loggerImportL ++ [Char.ofNat 10])) ++ suf) := by
  have hne : mi ≠ [] := searchImport_ne_nil hsearch
  have step : add_logger_import content
      = replaceAll mi (mi ++ (loggerImportL ++ [Char.ofNat 10])) content := by
    simp [add_logger_import, habs, hsearch]
  rw [step, hdecomp]
  rw [hdecomp] at huniq
  exact replaceAll_unique hne pre suf _ le_rfl huniq

/-- Witness for the amended C3 at a two-line content with one import line. -/
theorem c3_amended_witness :
    hasSubstr loggerImportL (str "import a;\nbody\n") = false ∧
    searchImport (str "import a;\nbody\n") = some (str "import a;\n") ∧
    str "import a;\nbody\n" = [] ++ (str "import a;\n" ++ str "body\n") ∧
    occCount (str "import a;\n") (str "import a;\nbody\n") = 1 ∧
    add_logger_import (str "import a;\nbody\n")
      = [] ++ ((str "import a;\n" ++ (loggerImportL ++ [Char.ofNat 10])) ++ str "body\n") :=
  ⟨by decide, by decide, by decide, by decide,
    c3_amended (str "import a;\nbody\n") [] (str "body\n") (str "import a;\n")
      (by decide) (by decide) (by decide) (by decide)⟩

/-- Claim C4 counterexample: a later rule's pattern can match text produced
by an earlier rule's replacement.  After rule (a) rewrites the inner call of
`print("A print('DEBUG: m'); B");`, rule (f) matches the whole resulting
text, whose message group contains rule (a)'s replacement output
`Logger.d('T', 'm');` — a substring that was not present in the original. -/
theorem c4_counterexample :
    sub1 (str "T") (str "print(\"A print('DEBUG: m'); B\");")
      = str "print(\"A Logger.d('T', 'm'); B\");" ∧
    hasSubstr (str "Logger.d('T', 'm');") (str "print(\"A print('DEBUG: m'); B\");") = false ∧
    m6 (str "T") (str "print(\"A Logger.d('T', 'm'); B\");")
      = some (str "Logger.d('T', 'A Logger.d('T', 'm'); B');", []) ∧
    hasSubstr (str "Logger.d('T', 'm');")
        (str "Logger.d('T', 'A Logger.d('T', 'm'); B');") = true :=
  ⟨by decide, by decide, by decide, by decide⟩

/-- Claim C4 (amended): the seven rules are applied strictly sequentially,
each operating on the full output of all prior rules; but it is not true
that a later rule never matches text produced by an earlier rule — rule (f)
applied after rule (a) produces a different result than rule (f) applied to
the original text, because it matches a region containing rule (a)'s
replacement output. -/
theorem c4_amended :
    (∀ (tag s : List Char), replace_print_with_logger tag s
      = sub7 tag (sub6 tag (sub5 tag (sub4 tag (sub3 tag (sub2 tag (sub1 tag s))))))) ∧
    replace_print_with_logger (str "T") (str "print(\"A print('DEBUG: m'); B\");")
      = str "Logger.d('T', 'A Logger.d('T', 'm'); B');" ∧
    sub6 (str "T") (str "print(\"A print('DEBUG: m'); B\");")
      ≠ str "Logger.d('T', 'A Logger.d('T', 'm'); B');" :=
  ⟨fun _ _ => rfl, by decide, by decide⟩

/-- Claim C9 counterexample: rule (g) is not redundant.  On
`print("a"b: $v");` — whose message contains a double quote before the colon
— none of the first six rules matches (rule (f)'s `[^"]+` stops at the inner
quote), but rule (g) does, so the seven-rule output differs from the
six-rule output. -/
theorem c9_counterexample :
    replace_print_first_six (str "T") (str "print(\"a\"b: $v\");")
      = str "print(\"a\"b: $v\");" ∧
    replace_print_with_logger (str "T") (str "print(\"a\"b: $v\");")
      = str "Logger.d('T', 'a\"b: $v');" ∧
    replace_print_with_logger (str "T") (str "print(\"a\"b: $v\");")
      ≠ replace_print_first_six (str "T") (str "print(\"a\"b: $v\");") :=
  ⟨by decide, by decide, by decide⟩

/-- Claim C9 (amended): rule (g) is redundant exactly on occurrences without
an embedded double quote: for any `print("g1: $g2");` in which the message
part `g1` contains no colon and no double quote and the variable part `g2`
contains no double quote, rule (g) alone produces the same text as rule (f)
alone, and rule (g) finds nothing in rule (f)'s output, so running (f) then
(g) equals running (f); in general rule (g) is not redundant (see the
counterexample). -/
theorem c9_amended (tag g1 g2 : List Char) (hg1 : g1 ≠ []) (hg2 : g2 ≠ [])
    (h1 : ∀ c ∈ g1, c ≠ ':' ∧ c ≠ dqC) (h2 : ∀ c ∈ g2, c ≠ dqC)
    (ht : ∀ c ∈ tag, c ≠ dqC) :
    sub7 tag (gPrintCall g1 g2) = sub6 tag (gPrintCall g1 g2) ∧
    sub7 tag (sub6 tag (gPrintCall g1 g2)) = sub6 tag (gPrintCall g1 g2) := by
  have hg1d : ∀ c ∈ g1, c ≠ dqC := fun c hc => (h1 c hc).2
  have hnenil : gPrintCall g1 g2 ≠ [] := by
    intro hnil
    rw [gPrintCall] at hnil
    simp only [List.append_eq_nil] at hnil
    exact absurd hnil.1.2 (by decide)
  have h6 : sub6 tag (gPrintCall g1 g2) = gLoggerCall tag g1 g2 :=
    reSub_total hnenil (m6_gPrintCall hg1 hg1d h2)
  have h7 : sub7 tag (gPrintCall g1 g2) = gLoggerCall tag g1 g2 :=
    reSub_total hnenil (m7_gPrintCall hg1 hg2 h1 h2)
  have hid : sub7 tag (gLoggerCall tag g1 g2) = gLoggerCall tag g1 g2 :=
    reSubF_id_of_not_mem (fun _ _ hx => m7_mem_dq hx)
      (dqC_not_mem_gLoggerCall ht hg1d h2) _
  refine ⟨h7.trans h6.symm, ?_⟩
  rw [h6, hid]

/-- Witness for the amended C9 at `print("a: $b");` with tag `T`. -/
theorem c9_amended_witness :
    (str "a" ≠ ([] : List Char)) ∧ (str "b" ≠ ([] : List Char)) ∧
    sub7 (str "T") (gPrintCall (str "a") (str "b"))
      = sub6 (str "T") (gPrintCall (str "a") (str "b")) ∧
    sub7 (str "T") (sub6 (str "T") (gPrintCall (str "a") (str "b")))
      = sub6 (str "T") (gPrintCall (str "a") (str "b")) :=
  ⟨by decide, by decide,
    (c9_amended (str "T") (str "a") (str "b") (by decide) (by decide) (by decide)
      (by decide) (by decide)).1,
    (c9_amended (str "T") (str "a") (str "b") (by decide) (by decide) (by decide)
      (by decide) (by decide)).2⟩

/-- Claim C5: the file set is the existing priority files in listed order
followed by the discovered files in discovery order with the logger file and
priority files excluded; consequently the list has no duplicates, never
contains the logger file, and never contains a priority file that is absent
from disk. -/
theorem c5_file_set_builder (onDisk : String → Bool) (dartFiles : List String)
    (hnd : dartFiles.Nodup) :
    processedPaths onDisk dartFiles
      = key_files.filter (fun p => onDisk p)
        ++ dartFiles.filter (fun p => !(p == loggerFilePath || key_files.contains p)) ∧
    (processedPaths onDisk dartFiles).Nodup ∧
    loggerFilePath ∉ processedPaths onDisk dartFiles ∧
    ∀ p ∈ key_files, onDisk p = false → p ∉ processedPaths onDisk dartFiles := by
  have hkf : key_files.Nodup := by decide
  have hpred : ∀ (a : String),
      (!(a == loggerFilePath || key_files.contains a)) = true →
        (a == loggerFilePath) = false ∧ key_files.contains a = false := by
    intro a ha
    rw [Bool.not_eq_true'] at ha
    exact Bool.or_eq_false_iff.mp ha
  refine ⟨rfl, ?_, ?_, ?_⟩
  · apply List.Nodup.append (hkf.filter _) (hnd.filter _)
    intro a ha hb
    have ha' : a ∈ key_files := (List.mem_filter.mp ha).1
    have hb' := (hpred a (List.mem_filter.mp hb).2).2
    rw [show key_files.contains a = List.elem a key_files from rfl,
      List.elem_eq_true_of_mem ha'] at hb'
    cases hb'
  · intro hmem
    rcases List.mem_append.mp hmem with h | h
    · have : loggerFilePath ∈ key_files := (List.mem_filter.mp h).1
      exact absurd this (by decide)
    · have := (hpred loggerFilePath (List.mem_filter.mp h).2).1
      rw [beq_self_eq_true] at this
      cases this
  · intro p hp hdisk hmem
    rcases List.mem_append.mp hmem with h | h
    · have := (List.mem_filter.mp h).2
      rw [hdisk] at this
      cases this
    · have := (hpred p (List.mem_filter.mp h).2).2
      rw [show key_files.contains p = List.elem p key_files from rfl,
        List.elem_eq_true_of_mem hp] at this
      cases this

/-- Witness for C5 at a concrete existence predicate and discovery list. -/
theorem c5_witness :
    ["lib/widgets/btn.dart", "lib/main.dart", "lib/utils/logger.dart"].Nodup ∧
    (processedPaths (fun p => p == "lib/main.dart")
        ["lib/widgets/btn.dart", "lib/main.dart", "lib/utils/logger.dart"]
      = key_files.filter (fun p => (fun p => p == "lib/main.dart") p)
        ++ ["lib/widgets/btn.dart", "lib/main.dart", "lib/utils/logger.dart"].filter
          (fun p => !(p == loggerFilePath || key_files.contains p)) ∧
    (processedPaths (fun p => p == "lib/main.dart")
        ["lib/widgets/btn.dart", "lib/main.dart", "lib/utils/logger.dart"]).Nodup ∧
    loggerFilePath ∉ processedPaths (fun p => p == "lib/main.dart")
        ["lib/widgets/btn.dart", "lib/main.dart", "lib/utils/logger.dart"] ∧
    ∀ p ∈ key_files, (fun p => p == "lib/main.dart") p = false →
      p ∉ processedPaths (fun p => p == "lib/main.dart")
        ["lib/widgets/btn.dart", "lib/main.dart", "lib/utils/logger.dart"]) :=
  ⟨by decide, c5_file_set_builder (fun p => p == "lib/main.dart")
    ["lib/widgets/btn.dart", "lib/main.dart", "lib/utils/logger.dart"] (by decide)⟩
